import Mathlib

/-!
Shallow embedding of the nagare memory-sessions core:

* `src/nagare/sessions/lru_dict.py` — `LRUDict`, a bounded LRU dictionary
  built on an insertion-ordered association list (Python's `OrderedDict`:
  head of the list is the least-recently-used entry, tail the
  most-recently-used one).
* `src/nagare/sessions/memory_sessions.py` — `Sessions`, a two-level
  session store: an outer `LRUDict` from session id to session record,
  each record holding a nested `LRUDict` of states.

Python's in-place mutation is rendered as explicit state passing;
operations that raise `KeyError` / `ExpirationError` return
`Option` / `Except`.
-/

namespace Nagare

/-- `Err.notFound` models Python's `KeyError`, `Err.expired` models
`nagare.sessions.exceptions.ExpirationError`. -/
inductive Err : Type where
  | notFound : Err
  | expired : Err
deriving DecidableEq

variable {K V : Type} [DecidableEq K]

/-- The keys of an association list, in order. -/
def keys (l : List (K × V)) : List K := l.map Prod.fst

/-- `lookup k l` — the value stored under `k` (the first binding), as
`OrderedDict.__getitem__` / `get` would return it. -/
def lookup (k : K) : List (K × V) → Option V
  | [] => none
  | p :: t => if p.1 = k then some p.2 else lookup k t

/-- `eraseKey k l` — the list with the first binding of `k` removed;
models `OrderedDict.pop(k, ...)`'s effect on the order. -/
def eraseKey (k : K) : List (K × V) → List (K × V)
  | [] => []
  | p :: t => if p.1 = k then t else p :: eraseKey k t

/-- `setValueAt k v l` — replace in place the value of the first binding
of `k`, keeping the order; models Python's in-place mutation of the
object stored under `k`. -/
def setValueAt (k : K) (v : V) : List (K × V) → List (K × V)
  | [] => []
  | p :: t => if p.1 = k then (k, v) :: t else p :: setValueAt k v t

/-- `lru_dict.LRUDict`: `size` is the capacity bound (`self.size`),
`dict` the ordered bindings of `self.dict`, least-recently-used first. -/
structure LRUDict (K V : Type) where
  size : Nat
  dict : List (K × V)
deriving DecidableEq

namespace LRUDict

/-- `LRUDict.__init__(size)`: empty ordered dict. -/
def init (K V : Type) (size : Nat) : LRUDict K V := ⟨size, []⟩

/-- `LRUDict.__contains__(k)`: `k in self.dict`. -/
def contains (d : LRUDict K V) (k : K) : Bool := (lookup k d.dict).isSome

/-- `LRUDict.__getitem__(k)`: `v = self.dict.pop(k)` (raising `KeyError`,
i.e. `none`, if absent), `self.dict[k] = v`, return `v` together with the
updated dictionary. -/
def getitem (d : LRUDict K V) (k : K) : Option (V × LRUDict K V) :=
  match lookup k d.dict with
  | none => none
  | some v => some (v, ⟨d.size, eraseKey k d.dict ++ [(k, v)]⟩)

/-- `LRUDict.__setitem__(k, v)`: `self.dict.pop(k, None)`,
`self.dict[k] = v`, then `if len(self.dict) > self.size:
self.dict.popitem(False)` (drop the head, i.e. the LRU entry). -/
def setitem (d : LRUDict K V) (k : K) (v : V) : LRUDict K V :=
  let l := eraseKey k d.dict ++ [(k, v)]
  ⟨d.size, if d.size < l.length then l.tail else l⟩

/-- `LRUDict.__delitem__(k)`: `del self.dict[k]`, raising `KeyError`
(`none`) if absent. -/
def delitem (d : LRUDict K V) (k : K) : Option (LRUDict K V) :=
  match lookup k d.dict with
  | none => none
  | some _ => some ⟨d.size, eraseKey k d.dict⟩

/-- `LRUDict.items()`: the ordered snapshot of the bindings. -/
def items (d : LRUDict K V) : List (K × V) := d.dict

end LRUDict

/-- One operation of the `LRUDict` public interface, for stating
properties of arbitrary operation sequences. -/
inductive Op (K V : Type) : Type where
  | set : K → V → Op K V
  | get : K → Op K V
  | del : K → Op K V
  | mem : K → Op K V

/-- Apply one operation to the dictionary, keeping the resulting state;
a failing `get`/`del` raises `KeyError` before any mutation, so it
leaves the dictionary unchanged, and `__contains__` never mutates. -/
def applyOp (d : LRUDict K V) : Op K V → LRUDict K V
  | .set k v => d.setitem k v
  | .get k =>
    match d.getitem k with
    | some (_, d') => d'
    | none => d
  | .del k =>
    match d.delitem k with
    | some d' => d'
    | none => d
  | .mem _ => d

/-- The session record stored as the value of the outer cache:
`[last_state_id, lock, secure_token, session_data, states]` in
`memory_sessions.py` (`session_data` is `None` at creation). Locks are
modelled as the numbers handed out by the lock factory. -/
structure Session (T D S : Type) where
  lastStateId : Nat
  lock : Nat
  secureToken : T
  sessionData : Option D
  states : LRUDict Nat S
deriving DecidableEq

/-- `memory_sessions.Sessions`: the outer LRU dictionary of sessions,
the per-session state-cache capacity `nb_states`, and the lock factory
(`self.local.worker.create_lock`) modelled as a fresh-lock counter. -/
structure Sessions (T D S : Type) where
  nb_states : Nat
  sessions : LRUDict Nat (Session T D S)
  nextLock : Nat
deriving DecidableEq

namespace Sessions

variable {T D S : Type}

/-- `Sessions.check_session_id(session_id)`: `session_id in self._sessions`;
returns the answer and the (unchanged) store. -/
def check_session_id (ss : Sessions T D S) (sid : Nat) : Bool × Sessions T D S :=
  (ss.sessions.contains sid, ss)

/-- `Sessions.get_lock(session_id)`: `self._sessions[session_id][1]`,
turning the `KeyError` of an absent session into `ExpirationError`.
The successful lookup promotes the session (LRU `__getitem__`). -/
def get_lock (ss : Sessions T D S) (sid : Nat) : Except Err Nat × Sessions T D S :=
  match ss.sessions.getitem sid with
  | none => (.error .expired, ss)
  | some (sess, d') => (.ok sess.lock, { ss with sessions := d' })

/-- `Sessions._create(session_id, secure_token)`: allocate a fresh lock,
insert `[0, lock, secure_token, None, LRUDict(self.nb_states)]` under
`session_id`, return `(session_id, 0, secure_token, lock)`. -/
def create (ss : Sessions T D S) (sid : Nat) (tok : T) :
    (Nat × Nat × T × Nat) × Sessions T D S :=
  let lock := ss.nextLock
  let sess : Session T D S := ⟨0, lock, tok, none, LRUDict.init Nat S ss.nb_states⟩
  ((sid, 0, tok, lock),
   { ss with nextLock := ss.nextLock + 1, sessions := ss.sessions.setitem sid sess })

/-- `Sessions.delete(session_id)`: `del self._sessions[session_id]`;
the `KeyError` of an absent session propagates. -/
def delete (ss : Sessions T D S) (sid : Nat) : Except Err Unit × Sessions T D S :=
  match ss.sessions.delitem sid with
  | none => (.error .notFound, ss)
  | some d' => (.ok (), { ss with sessions := d' })

/-- `Sessions._fetch(session_id, state_id)`: look the session up
(promoting it), then look the state up in its inner cache (promoting it,
in place in the stored record); any `KeyError` becomes
`ExpirationError`. The inner lookup raises before mutating, so a
session-present/state-absent failure still keeps the outer promotion. -/
def fetch (ss : Sessions T D S) (sid stateId : Nat) :
    Except Err (Nat × T × Option D × S) × Sessions T D S :=
  match ss.sessions.getitem sid with
  | none => (.error .expired, ss)
  | some (sess, d') =>
    match sess.states.getitem stateId with
    | none => (.error .expired, { ss with sessions := d' })
    | some (sdata, states') =>
      (.ok (sess.lastStateId, sess.secureToken, sess.sessionData, sdata),
       { ss with
          sessions := ⟨d'.size, setValueAt sid { sess with states := states' } d'.dict⟩ })

/-- `Sessions._store(session_id, state_id, secure_token, use_same_state,
session_data, state_data)`: `session = self._sessions[session_id]`
(promoting; `KeyError` propagates if absent), then in place:
`session[0] += 1` unless `use_same_state`, `session[2] = secure_token`,
`session[3] = session_data`, `session[4][state_id] = state_data`. -/
def store (ss : Sessions T D S) (sid stateId : Nat) (tok : T)
    (useSameState : Bool) (sdata : Option D) (stdata : S) :
    Except Err Unit × Sessions T D S :=
  match ss.sessions.getitem sid with
  | none => (.error .notFound, ss)
  | some (sess, d') =>
    let sess' : Session T D S :=
      { lastStateId := if useSameState then sess.lastStateId else sess.lastStateId + 1
        lock := sess.lock
        secureToken := tok
        sessionData := sdata
        states := sess.states.setitem stateId stdata }
    (.ok (), { ss with sessions := ⟨d'.size, setValueAt sid sess' d'.dict⟩ })

end Sessions

/-! ### Concrete fixtures for the witness theorems -/

/-- A session record with two stored states. -/
def sessA : Session Nat Nat Nat := ⟨4, 5, 100, some 8, ⟨2, [(0, 50), (1, 51)]⟩⟩

/-- A freshly created session record. -/
def sessB : Session Nat Nat Nat := ⟨0, 6, 200, none, ⟨2, []⟩⟩

/-- A store holding the two sessions above. -/
def storeA : Sessions Nat Nat Nat := ⟨2, ⟨3, [(7, sessA), (9, sessB)]⟩, 11⟩

/-- An empty store. -/
def storeE : Sessions Nat Nat Nat := ⟨2, ⟨3, []⟩, 0⟩

/-! ### Basic lemmas about the association-list primitives -/

theorem lookup_isSome_iff (k : K) (l : List (K × V)) :
    (lookup k l).isSome ↔ k ∈ keys l := by
  induction l with
  | nil => simp [lookup, keys]
  | cons p t ih =>
    by_cases h : p.1 = k
    · simp [lookup, keys, h]
    · simp [lookup, keys, h, ih, Ne.symm h]

theorem lookup_eq_none_iff (k : K) (l : List (K × V)) :
    lookup k l = none ↔ k ∉ keys l := by
  rw [← lookup_isSome_iff, Option.not_isSome_iff_eq_none]

theorem mem_keys_of_lookup_eq_some {k : K} {l : List (K × V)} {v : V}
    (h : lookup k l = some v) : k ∈ keys l := by
  rw [← lookup_isSome_iff, h]; rfl

theorem eraseKey_of_not_mem {k : K} {l : List (K × V)} (h : k ∉ keys l) :
    eraseKey k l = l := by
  induction l with
  | nil => rfl
  | cons p t ih =>
    simp only [keys, List.map_cons, List.mem_cons] at h
    push_neg at h
    simp [eraseKey, Ne.symm h.1, ih h.2]

theorem eraseKey_sublist (k : K) (l : List (K × V)) :
    List.Sublist (eraseKey k l) l := by
  induction l with
  | nil => simp [eraseKey]
  | cons p t ih =>
    simp only [eraseKey]
    split
    · exact (List.sublist_cons_self p t)
    · exact ih.cons₂ p

theorem length_eraseKey_add_one_of_mem {k : K} {l : List (K × V)}
    (h : k ∈ keys l) : (eraseKey k l).length + 1 = l.length := by
  induction l with
  | nil => simp [keys] at h
  | cons p t ih =>
    by_cases hp : p.1 = k
    · simp [eraseKey, hp]
    · simp only [keys, List.map_cons, List.mem_cons] at h
      rcases h with h | h
      · exact absurd h.symm hp
      · simp [eraseKey, hp, ih h]

theorem length_eraseKey_le (k : K) (l : List (K × V)) :
    (eraseKey k l).length ≤ l.length :=
  (eraseKey_sublist k l).length_le

theorem not_mem_keys_eraseKey {k : K} {l : List (K × V)}
    (h : (keys l).Nodup) : k ∉ keys (eraseKey k l) := by
  induction l with
  | nil => simp [eraseKey, keys]
  | cons p t ih =>
    simp only [keys, List.map_cons, List.nodup_cons] at h
    by_cases hp : p.1 = k
    · simp only [eraseKey, if_pos hp]
      exact hp ▸ h.1
    · simp only [eraseKey, hp, if_false, keys, List.map_cons, List.mem_cons]
      push_neg
      exact ⟨Ne.symm hp, ih h.2⟩

theorem eraseKey_append_of_not_mem {k : K} {l₁ : List (K × V)}
    (h : k ∉ keys l₁) (l₂ : List (K × V)) :
    eraseKey k (l₁ ++ l₂) = l₁ ++ eraseKey k l₂ := by
  induction l₁ with
  | nil => rfl
  | cons p t ih =>
    simp only [keys, List.map_cons, List.mem_cons] at h
    push_neg at h
    simp [eraseKey, Ne.symm h.1, ih h.2]

theorem eraseKey_append_singleton {k : K} {l : List (K × V)}
    (h : k ∉ keys l) (v : V) : eraseKey k (l ++ [(k, v)]) = l := by
  rw [eraseKey_append_of_not_mem h]
  simp [eraseKey]

theorem lookup_append_of_not_mem {k : K} {l₁ : List (K × V)}
    (h : k ∉ keys l₁) (l₂ : List (K × V)) :
    lookup k (l₁ ++ l₂) = lookup k l₂ := by
  induction l₁ with
  | nil => rfl
  | cons p t ih =>
    simp only [keys, List.map_cons, List.mem_cons] at h
    push_neg at h
    simp [lookup, Ne.symm h.1, ih h.2]

theorem lookup_append_singleton {k : K} {l : List (K × V)}
    (h : k ∉ keys l) (v : V) : lookup k (l ++ [(k, v)]) = some v := by
  rw [lookup_append_of_not_mem h]
  simp [lookup]

theorem setValueAt_append_of_not_mem {k : K} {l₁ : List (K × V)}
    (h : k ∉ keys l₁) (v : V) (l₂ : List (K × V)) :
    setValueAt k v (l₁ ++ l₂) = l₁ ++ setValueAt k v l₂ := by
  induction l₁ with
  | nil => rfl
  | cons p t ih =>
    simp only [keys, List.map_cons, List.mem_cons] at h
    push_neg at h
    simp [setValueAt, Ne.symm h.1, ih h.2]

theorem setValueAt_append_singleton {k : K} {l : List (K × V)}
    (h : k ∉ keys l) (v w : V) :
    setValueAt k v (l ++ [(k, w)]) = l ++ [(k, v)] := by
  rw [setValueAt_append_of_not_mem h]
  simp [setValueAt]

omit [DecidableEq K] in
theorem keys_append (l₁ l₂ : List (K × V)) :
    keys (l₁ ++ l₂) = keys l₁ ++ keys l₂ := by
  simp [keys]

omit [DecidableEq K] in
theorem mem_keys_append_singleton {j k : K} (w : V) (l : List (K × V)) :
    j ∈ keys (l ++ [(k, w)]) ↔ j ∈ keys l ∨ j = k := by
  simp [keys]

theorem mem_keys_eraseKey_of_ne {j k : K} (hjk : j ≠ k) (l : List (K × V)) :
    j ∈ keys (eraseKey k l) ↔ j ∈ keys l := by
  induction l with
  | nil => simp [eraseKey]
  | cons p t ih =>
    by_cases hp : p.1 = k
    · simp only [eraseKey, if_pos hp, keys, List.map_cons, List.mem_cons]
      constructor
      · exact Or.inr
      · rintro (h | h)
        · exact absurd (h.trans hp) hjk
        · exact h
    · simp only [eraseKey, if_neg hp, keys, List.map_cons, List.mem_cons]
      rw [show (keys (eraseKey k t) : List K) = List.map Prod.fst (eraseKey k t) from rfl] at ih
      rw [show (keys t : List K) = List.map Prod.fst t from rfl] at ih
      rw [ih]

/-! ### Lemmas about the `LRUDict` operations -/

theorem contains_eq_false_iff (d : LRUDict K V) (k : K) :
    d.contains k = false ↔ lookup k d.dict = none := by
  cases h : lookup k d.dict <;> simp [LRUDict.contains, h]

theorem lookup_setitem_self (d : LRUDict K V) (k : K) (v : V)
    (hpos : 1 ≤ d.size) (hnd : (keys d.dict).Nodup) :
    lookup k (d.setitem k v).dict = some v := by
  have hne : k ∉ keys (eraseKey k d.dict) := not_mem_keys_eraseKey hnd
  simp only [LRUDict.setitem]
  split
  · rename_i hev
    simp only [List.length_append, List.length_cons, List.length_nil] at hev
    obtain ⟨p, t, he⟩ : ∃ p t, eraseKey k d.dict = p :: t := by
      cases hcase : eraseKey k d.dict with
      | nil => rw [hcase] at hev; simp at hev; omega
      | cons p t => exact ⟨p, t, rfl⟩
    rw [he, List.cons_append, List.tail_cons]
    refine lookup_append_singleton ?_ v
    intro hkt
    refine hne ?_
    rw [he, keys, List.map_cons]
    exact List.mem_cons_of_mem _ hkt
  · exact lookup_append_singleton hne v

theorem applyOp_size (d : LRUDict K V) (op : Op K V) :
    (applyOp d op).size = d.size := by
  cases op with
  | set k v => rfl
  | get k =>
    simp only [applyOp, LRUDict.getitem]
    cases lookup k d.dict <;> rfl
  | del k =>
    simp only [applyOp, LRUDict.delitem]
    cases lookup k d.dict <;> rfl
  | mem k => rfl

theorem setitem_length_le (d : LRUDict K V) (k : K) (v : V)
    (h : d.dict.length ≤ d.size) :
    (d.setitem k v).dict.length ≤ d.size := by
  have hl : (eraseKey k d.dict ++ [(k, v)]).length ≤ d.size + 1 := by
    have := length_eraseKey_le k d.dict
    simp only [List.length_append, List.length_cons, List.length_nil]
    omega
  simp only [LRUDict.setitem]
  split
  · rename_i hev
    rw [List.length_tail]
    omega
  · rename_i hev
    omega

theorem applyOp_length_le (d : LRUDict K V) (op : Op K V)
    (h : d.dict.length ≤ d.size) :
    (applyOp d op).dict.length ≤ d.size := by
  cases op with
  | set k v => exact setitem_length_le d k v h
  | get k =>
    simp only [applyOp, LRUDict.getitem]
    cases hk : lookup k d.dict with
    | none => exact h
    | some v =>
      have hmem := mem_keys_of_lookup_eq_some hk
      have := length_eraseKey_add_one_of_mem (V := V) hmem
      simp only [List.length_append, List.length_cons, List.length_nil]
      omega
  | del k =>
    simp only [applyOp, LRUDict.delitem]
    cases hk : lookup k d.dict with
    | none => exact h
    | some v =>
      have := length_eraseKey_le k d.dict
      simp only
      omega
  | mem k => exact h

theorem foldl_applyOp_length_le (ops : List (Op K V)) :
    ∀ d : LRUDict K V, d.dict.length ≤ d.size →
      (ops.foldl applyOp d).dict.length ≤ (ops.foldl applyOp d).size := by
  induction ops with
  | nil => intro d h; exact h
  | cons op t ih =>
    intro d h
    simp only [List.foldl_cons]
    exact ih (applyOp d op) (by rw [applyOp_size]; exact applyOp_length_le d op h)

theorem foldl_applyOp_size (ops : List (Op K V)) :
    ∀ d : LRUDict K V, (ops.foldl applyOp d).size = d.size := by
  induction ops with
  | nil => intro d; rfl
  | cons op t ih =>
    intro d
    simp only [List.foldl_cons, ih, applyOp_size]

/-! ### Lemmas about the `Sessions` operations -/

theorem store_sessions_dict {T D S : Type} (ss : Sessions T D S) (sid stateId : Nat)
    (tok : T) (useSameState : Bool) (sdata : Option D) (stdata : S)
    (hnd : (keys ss.sessions.dict).Nodup)
    (sess : Session T D S) (hlook : lookup sid ss.sessions.dict = some sess) :
    (ss.store sid stateId tok useSameState sdata stdata).1 = .ok () ∧
    (ss.store sid stateId tok useSameState sdata stdata).2.sessions.dict =
      eraseKey sid ss.sessions.dict ++
        [(sid, { lastStateId := if useSameState then sess.lastStateId else sess.lastStateId + 1
                 lock := sess.lock
                 secureToken := tok
                 sessionData := sdata
                 states := sess.states.setitem stateId stdata })] := by
  have hne : sid ∉ keys (eraseKey sid ss.sessions.dict) := not_mem_keys_eraseKey hnd
  constructor
  · simp [Sessions.store, LRUDict.getitem, hlook]
  · simp only [Sessions.store, LRUDict.getitem, hlook]
    exact setValueAt_append_singleton hne _ _

/-! ### Claim theorems -/

/-- C1: on a Bounded LRU Cache that is exactly full (`size = capacity`,
capacity positive as the data model requires), inserting a key `k` not
already present removes exactly one entry — the head of the order, i.e.
the current least-recently-used entry, whose key differs from `k` — and
appends `(k, v)` at the most-recently-used end; `setitem` is a total
function, so no error or output is produced, and the cache is back at
its capacity. -/
theorem claim_C1_full_insert_evicts_lru (d : LRUDict K V) (k : K) (v : V)
    (hfull : d.dict.length = d.size) (hpos : 0 < d.size) (hk : k ∉ keys d.dict) :
    ∃ p t, d.dict = p :: t ∧ p.1 ≠ k ∧
      (d.setitem k v).dict = t ++ [(k, v)] ∧
      (d.setitem k v).dict.length = d.size := by
  obtain ⟨p, t, hd⟩ : ∃ p t, d.dict = p :: t := by
    cases hdict : d.dict with
    | nil => rw [hdict] at hfull; simp at hfull; omega
    | cons p t => exact ⟨p, t, rfl⟩
  have hpk : p.1 ≠ k := by
    intro hpk
    refine hk ?_
    rw [hd, keys, List.map_cons, hpk]
    exact List.mem_cons_self _ _
  have herase : eraseKey k d.dict = d.dict := eraseKey_of_not_mem hk
  have hev : d.size < (d.dict ++ [(k, v)]).length := by
    simp only [List.length_append, List.length_cons, List.length_nil]
    omega
  have hset : (d.setitem k v).dict = t ++ [(k, v)] := by
    simp only [LRUDict.setitem, herase, if_pos hev]
    rw [hd, List.cons_append, List.tail_cons]
  refine ⟨p, t, hd, hpk, hset, ?_⟩
  rw [hset]
  rw [hd] at hfull
  simp only [List.length_append, List.length_cons, List.length_nil] at hfull ⊢
  omega

/-- C1 witness: a concrete full cache of capacity 2. -/
theorem claim_C1_full_insert_evicts_lru_witness :
    ∃ p t, (⟨2, [(1, 10), (2, 20)]⟩ : LRUDict Nat Nat).dict = p :: t ∧ p.1 ≠ 3 ∧
      ((⟨2, [(1, 10), (2, 20)]⟩ : LRUDict Nat Nat).setitem 3 30).dict = t ++ [(3, 30)] ∧
      ((⟨2, [(1, 10), (2, 20)]⟩ : LRUDict Nat Nat).setitem 3 30).dict.length =
        (⟨2, [(1, 10), (2, 20)]⟩ : LRUDict Nat Nat).size :=
  claim_C1_full_insert_evicts_lru _ 3 30 (by decide) (by decide) (by decide)

/-- C2: starting from a Bounded LRU Cache constructed with positive
capacity `C`, after any finite sequence of `set`, `get`, `delete` and
`contains` operations the number of entries is at most `C` (hence, every
prefix of such a sequence also satisfies the bound after its last
operation). -/
theorem claim_C2_capacity_invariant (K V : Type) [DecidableEq K]
    (C : Nat) (_hC : 0 < C) (ops : List (Op K V)) :
    (ops.foldl applyOp (LRUDict.init K V C)).dict.length ≤ C := by
  have h := foldl_applyOp_length_le ops (LRUDict.init K V C) (by simp [LRUDict.init])
  rwa [foldl_applyOp_size ops (LRUDict.init K V C)] at h

/-- C2 witness: capacity 1 and a concrete mixed operation sequence. -/
theorem claim_C2_capacity_invariant_witness :
    (([Op.set 1 10, Op.set 2 20, Op.get 2, Op.del 2, Op.mem 1] : List (Op Nat Nat)).foldl
      applyOp (LRUDict.init Nat Nat 1)).dict.length ≤ 1 :=
  claim_C2_capacity_invariant Nat Nat 1 (by decide) _

/-- C3: on a cache satisfying the data-model invariants (distinct keys,
positive capacity), `get(k)` on a present key returns exactly the stored
value and moves `k` to the most-recently-used (last) position, leaving
the other entries — the cache with `k` erased — exactly as before, with
the capacity unchanged; `set(k, v)` places `(k, v)` at the
most-recently-used position with `k` bound to `v` (the previous binding
replaced, not merged), and the other entries are either all unchanged in
order or, when an eviction occurs, all but the dropped
least-recently-used one, still in their previous relative order. -/
theorem claim_C3_recency_promotion (d : LRUDict K V) (k : K) (v : V)
    (hnd : (keys d.dict).Nodup) (hpos : 0 < d.size) :
    (∀ w, lookup k d.dict = some w →
      ∃ d', d.getitem k = some (w, d') ∧
        d'.dict.getLast? = some (k, w) ∧
        eraseKey k d'.dict = eraseKey k d.dict ∧
        d'.size = d.size) ∧
    ((d.setitem k v).dict.getLast? = some (k, v) ∧
      lookup k (d.setitem k v).dict = some v ∧
      (eraseKey k (d.setitem k v).dict = eraseKey k d.dict ∨
        ∃ p t, eraseKey k d.dict = p :: t ∧ eraseKey k (d.setitem k v).dict = t)) := by
  have hne : k ∉ keys (eraseKey k d.dict) := not_mem_keys_eraseKey hnd
  constructor
  · intro w hw
    refine ⟨⟨d.size, eraseKey k d.dict ++ [(k, w)]⟩, ?_, ?_, ?_, rfl⟩
    · simp [LRUDict.getitem, hw]
    · exact List.getLast?_concat _
    · exact eraseKey_append_singleton hne w
  · by_cases hev : d.size < (eraseKey k d.dict ++ [(k, v)]).length
    · obtain ⟨p, t, he⟩ : ∃ p t, eraseKey k d.dict = p :: t := by
        cases hcase : eraseKey k d.dict with
        | nil =>
          rw [hcase] at hev
          simp at hev
          omega
        | cons p t => exact ⟨p, t, rfl⟩
      have hs : (d.setitem k v).dict = t ++ [(k, v)] := by
        have hcond : d.size < (p :: (t ++ [(k, v)])).length := by
          rw [he] at hev
          simpa using hev
        simp only [LRUDict.setitem, he, List.cons_append, if_pos hcond, List.tail_cons]
      have hkt : k ∉ keys t := by
        rw [he] at hne
        simp only [keys, List.map_cons, List.mem_cons] at hne
        push_neg at hne
        simpa [keys] using hne.2
      refine ⟨?_, ?_, Or.inr ⟨p, t, he, ?_⟩⟩
      · rw [hs]; exact List.getLast?_concat _
      · rw [hs]; exact lookup_append_singleton hkt v
      · rw [hs]; exact eraseKey_append_singleton hkt v
    · have hs : (d.setitem k v).dict = eraseKey k d.dict ++ [(k, v)] := by
        simp only [LRUDict.setitem, if_neg hev]
      refine ⟨?_, ?_, Or.inl ?_⟩
      · rw [hs]; exact List.getLast?_concat _
      · rw [hs]; exact lookup_append_singleton hne v
      · rw [hs]; exact eraseKey_append_singleton hne v

/-- C3 witness: a concrete cache of capacity 3 with two entries, reading
key 1 and writing key 1. -/
theorem claim_C3_recency_promotion_witness :
    (∃ d', (⟨3, [(1, 10), (2, 20)]⟩ : LRUDict Nat Nat).getitem 1 = some (10, d') ∧
      d'.dict.getLast? = some (1, 10) ∧
      eraseKey 1 d'.dict = eraseKey 1 (⟨3, [(1, 10), (2, 20)]⟩ : LRUDict Nat Nat).dict ∧
      d'.size = (⟨3, [(1, 10), (2, 20)]⟩ : LRUDict Nat Nat).size) ∧
    (((⟨3, [(1, 10), (2, 20)]⟩ : LRUDict Nat Nat).setitem 1 99).dict.getLast? =
        some (1, 99) ∧
      lookup 1 ((⟨3, [(1, 10), (2, 20)]⟩ : LRUDict Nat Nat).setitem 1 99).dict = some 99 ∧
      (eraseKey 1 ((⟨3, [(1, 10), (2, 20)]⟩ : LRUDict Nat Nat).setitem 1 99).dict =
          eraseKey 1 (⟨3, [(1, 10), (2, 20)]⟩ : LRUDict Nat Nat).dict ∨
        ∃ p t, eraseKey 1 (⟨3, [(1, 10), (2, 20)]⟩ : LRUDict Nat Nat).dict = p :: t ∧
          eraseKey 1 ((⟨3, [(1, 10), (2, 20)]⟩ : LRUDict Nat Nat).setitem 1 99).dict = t)) :=
  ⟨(claim_C3_recency_promotion _ 1 99 (by decide) (by decide)).1 10 (by decide),
   (claim_C3_recency_promotion _ 1 99 (by decide) (by decide)).2⟩

/-- C10: with capacity 0, every `set` evicts the entry it just inserted —
starting from construction the cache is empty after any sequence of
`set`s, and a single `set` on the (empty) cache leaves it empty with the
key absent; with capacity at least 1 (and the representation invariants:
distinct keys, size within capacity), after `set(k, v)` the key `k` is
present with value `v`, so the newly inserted entry is never the one
evicted. -/
theorem claim_C10_zero_capacity_self_eviction (K V : Type) [DecidableEq K] :
    (∀ ops : List (K × V),
      (ops.foldl (fun d p => d.setitem p.1 p.2) (LRUDict.init K V 0)).dict = []) ∧
    (∀ (d : LRUDict K V) (k : K) (v : V), d.size = 0 → d.dict = [] →
      (d.setitem k v).dict = [] ∧ (d.setitem k v).contains k = false) ∧
    (∀ (d : LRUDict K V) (k : K) (v : V), 1 ≤ d.size → (keys d.dict).Nodup →
      d.dict.length ≤ d.size → lookup k (d.setitem k v).dict = some v) := by
  have hstep : ∀ (d : LRUDict K V) (k : K) (v : V), d.size = 0 → d.dict = [] →
      (d.setitem k v).dict = [] ∧ (d.setitem k v).contains k = false := by
    intro d k v hsz hdict
    have : d.setitem k v = ⟨0, []⟩ := by
      simp [LRUDict.setitem, hdict, hsz, eraseKey]
    rw [this]
    exact ⟨rfl, rfl⟩
  have hsize0 : ∀ (d : LRUDict K V) (k : K) (v : V),
      (d.setitem k v).size = d.size := fun _ _ _ => rfl
  refine ⟨?_, hstep, ?_⟩
  · intro ops
    suffices h : ∀ d : LRUDict K V, d.size = 0 → d.dict = [] →
        (ops.foldl (fun d p => d.setitem p.1 p.2) d).dict = [] from
      h (LRUDict.init K V 0) rfl rfl
    induction ops with
    | nil => intro d _ hdict; exact hdict
    | cons p t ih =>
      intro d hsz hdict
      simp only [List.foldl_cons]
      exact ih _ (hsize0 d p.1 p.2 ▸ hsz) ((hstep d p.1 p.2 hsz hdict).1)
  · intro d k v hsz hnd _
    exact lookup_setitem_self d k v hsz hnd

/-- C10 witness: capacity 0 sequence stays empty; one step on the empty
capacity-0 cache; presence after `set` on a capacity-1 cache. -/
theorem claim_C10_zero_capacity_self_eviction_witness :
    (([(1, 10), (2, 20)] : List (Nat × Nat)).foldl
        (fun d p => d.setitem p.1 p.2) (LRUDict.init Nat Nat 0)).dict = [] ∧
    (((LRUDict.init Nat Nat 0).setitem 5 50).dict = [] ∧
      ((LRUDict.init Nat Nat 0).setitem 5 50).contains 5 = false) ∧
    lookup 7 ((⟨1, [(3, 30)]⟩ : LRUDict Nat Nat).setitem 7 70).dict = some 70 :=
  ⟨(claim_C10_zero_capacity_self_eviction Nat Nat).1 _,
   (claim_C10_zero_capacity_self_eviction Nat Nat).2.1 _ 5 50 rfl rfl,
   (claim_C10_zero_capacity_self_eviction Nat Nat).2.2 _ 7 70 (by decide) (by decide) (by decide)⟩

/-- C4: `fetch(sessionId, stateId)` fails with `Expired` when the
session id is absent from the outer cache, and also when the session is
present but the state id is absent from its inner cache; when both are
present (under the distinct-keys invariant of the outer cache) it
returns the session's `lastStateId`, `secureToken`, `sessionData` and
the state's data, and promotes the session to the most-recently-used
position of the outer cache and the state to the most-recently-used
position of that session's inner cache. -/
theorem claim_C4_fetch_expired_and_promotion {T D S : Type}
    (ss : Sessions T D S) (sid stateId : Nat) :
    (ss.sessions.contains sid = false →
      ss.fetch sid stateId = (.error .expired, ss)) ∧
    (∀ sess, lookup sid ss.sessions.dict = some sess →
      sess.states.contains stateId = false →
      (ss.fetch sid stateId).1 = .error .expired) ∧
    (∀ sess sdata, (keys ss.sessions.dict).Nodup →
      lookup sid ss.sessions.dict = some sess →
      lookup stateId sess.states.dict = some sdata →
      (ss.fetch sid stateId).1 =
        .ok (sess.lastStateId, sess.secureToken, sess.sessionData, sdata) ∧
      ∃ sess', (ss.fetch sid stateId).2.sessions.dict.getLast? = some (sid, sess') ∧
        sess'.states.dict.getLast? = some (stateId, sdata)) := by
  refine ⟨?_, ?_, ?_⟩
  · intro hc
    have hnone : lookup sid ss.sessions.dict = none :=
      (contains_eq_false_iff ss.sessions sid).mp hc
    simp [Sessions.fetch, LRUDict.getitem, hnone]
  · intro sess hlook hstate
    have hnone : lookup stateId sess.states.dict = none :=
      (contains_eq_false_iff sess.states stateId).mp hstate
    simp [Sessions.fetch, LRUDict.getitem, hlook, hnone]
  · intro sess sdata hnd hlook hstate
    have hne : sid ∉ keys (eraseKey sid ss.sessions.dict) := not_mem_keys_eraseKey hnd
    constructor
    · simp [Sessions.fetch, LRUDict.getitem, hlook, hstate]
    · refine ⟨{ sess with states := ⟨sess.states.size,
        eraseKey stateId sess.states.dict ++ [(stateId, sdata)]⟩ }, ?_, ?_⟩
      · simp only [Sessions.fetch, LRUDict.getitem, hlook, hstate]
        rw [setValueAt_append_singleton hne _ _]
        exact List.getLast?_concat _
      · exact List.getLast?_concat _

/-- C4 witness: an absent session, an absent state in a present session,
and a successful fetch on `storeA`. -/
theorem claim_C4_fetch_expired_and_promotion_witness :
    (storeE.fetch 7 0 = (.error .expired, storeE)) ∧
    ((storeA.fetch 7 3).1 = .error .expired) ∧
    ((storeA.fetch 7 0).1 =
        .ok (sessA.lastStateId, sessA.secureToken, sessA.sessionData, 50) ∧
      ∃ sess', (storeA.fetch 7 0).2.sessions.dict.getLast? = some (7, sess') ∧
        sess'.states.dict.getLast? = some (0, 50)) :=
  ⟨(claim_C4_fetch_expired_and_promotion storeE 7 0).1 (by decide),
   (claim_C4_fetch_expired_and_promotion storeA 7 3).2.1 sessA (by decide) (by decide),
   (claim_C4_fetch_expired_and_promotion storeA 7 0).2.2 sessA 50
     (by decide) (by decide) (by decide)⟩

/-- C5: on an existing session (outer keys distinct), `store` succeeds
and leaves under that session id a record whose `lastStateId` is the old
one when `useSameState` is true and the old one plus exactly 1 when it
is false, whose `secureToken` and `sessionData` are overwritten with the
given values, whose lock is unchanged, and whose inner state cache is
the old one with `(stateId, stateData)` upserted by the LRU `set`
operation (which may silently evict that session's least-recently-used
state). -/
theorem claim_C5_store_updates_session {T D S : Type} (ss : Sessions T D S)
    (sid stateId : Nat) (tok : T) (useSameState : Bool) (sdata : Option D) (stdata : S)
    (hnd : (keys ss.sessions.dict).Nodup)
    (sess : Session T D S) (hlook : lookup sid ss.sessions.dict = some sess) :
    (ss.store sid stateId tok useSameState sdata stdata).1 = .ok () ∧
    lookup sid (ss.store sid stateId tok useSameState sdata stdata).2.sessions.dict =
      some { lastStateId := if useSameState then sess.lastStateId else sess.lastStateId + 1
             lock := sess.lock
             secureToken := tok
             sessionData := sdata
             states := sess.states.setitem stateId stdata } := by
  obtain ⟨hok, hdict⟩ :=
    store_sessions_dict ss sid stateId tok useSameState sdata stdata hnd sess hlook
  refine ⟨hok, ?_⟩
  rw [hdict]
  exact lookup_append_singleton (not_mem_keys_eraseKey hnd) _

/-- C5 witness: storing on session 7 of `storeA`, once advancing the
state id and once reusing it. -/
theorem claim_C5_store_updates_session_witness :
    ((storeA.store 7 0 300 false (some 9) 60).1 = .ok () ∧
      lookup 7 (storeA.store 7 0 300 false (some 9) 60).2.sessions.dict =
        some { lastStateId := if false then sessA.lastStateId else sessA.lastStateId + 1
               lock := sessA.lock
               secureToken := 300
               sessionData := some 9
               states := sessA.states.setitem 0 60 }) ∧
    ((storeA.store 7 2 300 true (some 9) 60).1 = .ok () ∧
      lookup 7 (storeA.store 7 2 300 true (some 9) 60).2.sessions.dict =
        some { lastStateId := if true then sessA.lastStateId else sessA.lastStateId + 1
               lock := sessA.lock
               secureToken := 300
               sessionData := some 9
               states := sessA.states.setitem 2 60 }) :=
  ⟨claim_C5_store_updates_session storeA 7 0 300 false (some 9) 60
      (by decide) sessA (by decide),
   claim_C5_store_updates_session storeA 7 2 300 true (some 9) 60
      (by decide) sessA (by decide)⟩

/-- C6: `create(id, secureToken)` hands out exactly one fresh lock per
call (the lock counter advances by exactly 1 and the new session holds
the lock it allocated), returns the tuple `(id, 0, secureToken, lock)`,
and — provided the outer cache satisfies its invariants (distinct keys,
size within its positive capacity) — the outer cache afterwards maps
`id` to a record with `lastStateId = 0`, that lock, the given token, an
absent session payload and an empty inner cache of capacity `nb_states`;
since `set` replaces any previous binding of `id`, this also covers
re-creating an existing id. -/
theorem claim_C6_create_fresh_lock {T D S : Type} (ss : Sessions T D S)
    (sid : Nat) (tok : T)
    (hnd : (keys ss.sessions.dict).Nodup)
    (_hlen : ss.sessions.dict.length ≤ ss.sessions.size)
    (hpos : 0 < ss.sessions.size) :
    (ss.create sid tok).1 = (sid, 0, tok, ss.nextLock) ∧
    (ss.create sid tok).2.nextLock = ss.nextLock + 1 ∧
    lookup sid (ss.create sid tok).2.sessions.dict =
      some ⟨0, ss.nextLock, tok, none, LRUDict.init Nat S ss.nb_states⟩ ∧
    (ss.create sid tok).2.nb_states = ss.nb_states := by
  refine ⟨rfl, rfl, ?_, rfl⟩
  exact lookup_setitem_self ss.sessions sid _ hpos hnd

/-- C6 witness: creating session 12, and re-creating the existing
session 7, on `storeA`. -/
theorem claim_C6_create_fresh_lock_witness :
    ((storeA.create 12 400).1 = (12, 0, 400, storeA.nextLock) ∧
      (storeA.create 12 400).2.nextLock = storeA.nextLock + 1 ∧
      lookup 12 (storeA.create 12 400).2.sessions.dict =
        some ⟨0, storeA.nextLock, 400, none, LRUDict.init Nat Nat storeA.nb_states⟩ ∧
      (storeA.create 12 400).2.nb_states = storeA.nb_states) ∧
    ((storeA.create 7 400).1 = (7, 0, 400, storeA.nextLock) ∧
      (storeA.create 7 400).2.nextLock = storeA.nextLock + 1 ∧
      lookup 7 (storeA.create 7 400).2.sessions.dict =
        some ⟨0, storeA.nextLock, 400, none, LRUDict.init Nat Nat storeA.nb_states⟩ ∧
      (storeA.create 7 400).2.nb_states = storeA.nb_states) :=
  ⟨claim_C6_create_fresh_lock storeA 12 400 (by decide) (by decide) (by decide),
   claim_C6_create_fresh_lock storeA 7 400 (by decide) (by decide) (by decide)⟩

/-- C7: `getLock(id)` fails with `Expired` exactly when the session id
is absent, and on a present session returns that session's lock with the
outer cache reordered exactly as the underlying LRU lookup reorders it
(the session moved to the most-recently-used end, nothing else changed);
`delete(id)` propagates `NotFound` when the id is absent and removes the
session's entry when present (afterwards, under distinct keys, the id no
longer resolves), leaving the other entries as they were. -/
theorem claim_C7_get_lock_delete {T D S : Type} (ss : Sessions T D S) (sid : Nat) :
    (ss.sessions.contains sid = false →
      ss.get_lock sid = (.error .expired, ss) ∧
      ss.delete sid = (.error .notFound, ss)) ∧
    (∀ sess, lookup sid ss.sessions.dict = some sess →
      ss.get_lock sid =
        (.ok sess.lock,
          { ss with sessions :=
              ⟨ss.sessions.size, eraseKey sid ss.sessions.dict ++ [(sid, sess)]⟩ }) ∧
      ss.delete sid =
        (.ok (), { ss with sessions := ⟨ss.sessions.size, eraseKey sid ss.sessions.dict⟩ })) ∧
    (∀ sess, lookup sid ss.sessions.dict = some sess → (keys ss.sessions.dict).Nodup →
      lookup sid (ss.delete sid).2.sessions.dict = none) := by
  refine ⟨?_, ?_, ?_⟩
  · intro hc
    have hnone : lookup sid ss.sessions.dict = none :=
      (contains_eq_false_iff ss.sessions sid).mp hc
    constructor
    · simp [Sessions.get_lock, LRUDict.getitem, hnone]
    · simp [Sessions.delete, LRUDict.delitem, hnone]
  · intro sess hlook
    constructor
    · simp [Sessions.get_lock, LRUDict.getitem, hlook]
    · simp [Sessions.delete, LRUDict.delitem, hlook]
  · intro sess hlook hnd
    have : (ss.delete sid).2.sessions.dict = eraseKey sid ss.sessions.dict := by
      simp [Sessions.delete, LRUDict.delitem, hlook]
    rw [this, lookup_eq_none_iff]
    exact not_mem_keys_eraseKey hnd

/-- C7 witness: the absent branches on the empty store, the present
branches on `storeA` at session 7. -/
theorem claim_C7_get_lock_delete_witness :
    (storeE.get_lock 7 = (.error .expired, storeE) ∧
      storeE.delete 7 = (.error .notFound, storeE)) ∧
    (storeA.get_lock 7 =
        (.ok sessA.lock,
          { storeA with sessions :=
              ⟨storeA.sessions.size, eraseKey 7 storeA.sessions.dict ++ [(7, sessA)]⟩ }) ∧
      storeA.delete 7 =
        (.ok (), { storeA with sessions :=
            ⟨storeA.sessions.size, eraseKey 7 storeA.sessions.dict⟩ })) ∧
    lookup 7 (storeA.delete 7).2.sessions.dict = none :=
  ⟨(claim_C7_get_lock_delete storeE 7).1 (by decide),
   (claim_C7_get_lock_delete storeA 7).2.1 sessA (by decide),
   (claim_C7_get_lock_delete storeA 7).2.2 sessA (by decide) (by decide)⟩

/-- C8: `__contains__` answers presence exactly (true iff the key is
among the stored keys), is a total function (never fails), and — being a
pure read of the dictionary — changes nothing; `check_session_id` is the
pass-through membership test on the outer cache and returns the store
completely unchanged, so no entry is added or removed and the recency
order is untouched. -/
theorem claim_C8_contains_no_side_effect {T D S : Type} (d : LRUDict K V) (k : K)
    (ss : Sessions T D S) (sid : Nat) :
    (d.contains k = true ↔ k ∈ keys d.dict) ∧
    (ss.check_session_id sid).1 = ss.sessions.contains sid ∧
    (ss.check_session_id sid).2 = ss := by
  refine ⟨?_, rfl, rfl⟩
  rw [LRUDict.contains, ← lookup_isSome_iff]

/-- C9: a successful `store` on an existing session (outer keys
distinct) moves that session to the most-recently-used end of the outer
cache, while the entries of all other sessions — keys, records and
relative order — are exactly as before, the set of session ids present
is unchanged, and the number of sessions is unchanged (no session is
created, deleted or evicted at the outer level). -/
theorem claim_C9_store_outer_frame {T D S : Type} (ss : Sessions T D S)
    (sid stateId : Nat) (tok : T) (useSameState : Bool) (sdata : Option D) (stdata : S)
    (hnd : (keys ss.sessions.dict).Nodup)
    (sess : Session T D S) (hlook : lookup sid ss.sessions.dict = some sess) :
    (∃ sess',
      (ss.store sid stateId tok useSameState sdata stdata).2.sessions.dict.getLast? =
        some (sid, sess')) ∧
    eraseKey sid (ss.store sid stateId tok useSameState sdata stdata).2.sessions.dict =
      eraseKey sid ss.sessions.dict ∧
    (∀ j, j ∈ keys (ss.store sid stateId tok useSameState sdata stdata).2.sessions.dict ↔
      j ∈ keys ss.sessions.dict) ∧
    (ss.store sid stateId tok useSameState sdata stdata).2.sessions.dict.length =
      ss.sessions.dict.length := by
  obtain ⟨-, hdict⟩ :=
    store_sessions_dict ss sid stateId tok useSameState sdata stdata hnd sess hlook
  have hne : sid ∉ keys (eraseKey sid ss.sessions.dict) := not_mem_keys_eraseKey hnd
  have hmem : sid ∈ keys ss.sessions.dict := mem_keys_of_lookup_eq_some hlook
  refine ⟨?_, ?_, ?_, ?_⟩
  · rw [hdict]
    exact ⟨_, List.getLast?_concat _⟩
  · rw [hdict]; exact eraseKey_append_singleton hne _
  · intro j
    rw [hdict, mem_keys_append_singleton]
    by_cases hj : j = sid
    · subst hj
      simp [hmem]
    · rw [mem_keys_eraseKey_of_ne hj]
      simp [hj]
  · rw [hdict]
    simp only [List.length_append, List.length_cons, List.length_nil]
    have := length_eraseKey_add_one_of_mem (V := Session T D S) hmem
    omega

/-- C9 witness: storing on session 7 of `storeA` with
`useSameState = true`. -/
theorem claim_C9_store_outer_frame_witness :
    (∃ sess',
      (storeA.store 7 0 300 true (some 9) 60).2.sessions.dict.getLast? =
        some (7, sess')) ∧
    eraseKey 7 (storeA.store 7 0 300 true (some 9) 60).2.sessions.dict =
      eraseKey 7 storeA.sessions.dict ∧
    (∀ j, j ∈ keys (storeA.store 7 0 300 true (some 9) 60).2.sessions.dict ↔
      j ∈ keys storeA.sessions.dict) ∧
    (storeA.store 7 0 300 true (some 9) 60).2.sessions.dict.length =
      storeA.sessions.dict.length :=
  claim_C9_store_outer_frame storeA 7 0 300 true (some 9) 60 (by decide) sessA (by decide)

end Nagare
